import Mathlib

/-!
Shallow embedding of the storage core of `relationaldb-rs`
(`src/storage/clock_replacer.rs`, `src/storage/disk_manager.rs`,
`src/storage/buffer_pool_manager.rs`), together with theorems settling the
specification claims about it.

Machine bytes are modelled as `Nat`, the backing file as a `List Nat`
(index = byte offset, length = file size), and Rust `VecDeque`s as `List`s
(front = head).  Environmental I/O faults (the operating system failing a
read or write) are modelled by an `Except Unit` result where the embedded
code's own control flow decides between `ok` and error propagation.
-/

namespace RelDB

/-- `PAGE_SIZE` from `src/storage/mod.rs`: `1024 * 4`. -/
def PAGE_SIZE : Nat := 1024 * 4

/-! ## Clock replacer (`src/storage/clock_replacer.rs`)

`queue` holds `(flag, frame_id)` pairs, front of the `VecDeque` first. -/

structure ClockReplacer where
  queue : List (Bool × Nat)
  num_pages : Nat
deriving DecidableEq, Repr

/-- `ClockReplacer::new`. -/
def ClockReplacer.new (num_pages : Nat) : ClockReplacer :=
  ⟨[], num_pages⟩

/-- The first `for` loop of `ClockReplacer::un_pin`: if some record holds
`frame_id`, set its flag to `true` in place and stop; `none` when no record
matches. -/
def flipFrame (f : Nat) : List (Bool × Nat) → Option (List (Bool × Nat))
  | [] => none
  | q :: qs =>
    if q.2 = f then some ((true, q.2) :: qs)
    else (flipFrame f qs).map (fun qs' => q :: qs')

/-- The `find(|(_, item)| !item.0)` + `drain(idx..=idx)` step of
`ClockReplacer::un_pin`: remove the earliest record whose flag is `false`;
`none` when every flag is `true`. -/
def removeFirstUnset : List (Bool × Nat) → Option (List (Bool × Nat))
  | [] => none
  | q :: qs =>
    if q.1 = false then some qs
    else (removeFirstUnset qs).map (fun qs' => q :: qs')

/-- `ClockReplacer::un_pin`. -/
def ClockReplacer.un_pin (r : ClockReplacer) (f : Nat) : ClockReplacer :=
  match flipFrame f r.queue with
  | some q' => { r with queue := q' }
  | none =>
    let q :=
      if r.queue.length = r.num_pages then
        match removeFirstUnset r.queue with
        | some q' => q'
        | none => r.queue.tail
      else r.queue
    { r with queue := q ++ [(true, f)] }

/-- The `find` + `drain` of `ClockReplacer::pin`: remove the first record
holding `frame_id` (no-op when absent). -/
def removeFirstId (f : Nat) : List (Bool × Nat) → List (Bool × Nat)
  | [] => []
  | q :: qs => if q.2 = f then qs else q :: removeFirstId f qs

/-- `ClockReplacer::pin`. -/
def ClockReplacer.pin (r : ClockReplacer) (f : Nat) : ClockReplacer :=
  { r with queue := removeFirstId f r.queue }

/-- The scan of `ClockReplacer::victim`: first record with flag `true` has its
flag cleared and its frame id returned. -/
def victimScan : List (Bool × Nat) → Option (Nat × List (Bool × Nat))
  | [] => none
  | q :: qs =>
    if q.1 = true then some (q.2, (false, q.2) :: qs)
    else (victimScan qs).map (fun p => (p.1, q :: p.2))

/-- `ClockReplacer::victim`: returns the chosen frame id (if any) and the
updated replacer. -/
def ClockReplacer.victim (r : ClockReplacer) : Option Nat × ClockReplacer :=
  match victimScan r.queue with
  | some (v, q') => (some v, { r with queue := q' })
  | none => (none, r)

/-- `ClockReplacer::size`: number of records whose flag is `true`. -/
def ClockReplacer.size (r : ClockReplacer) : Nat :=
  (r.queue.filter (fun q => q.1 = true)).length

/-! ### Replacer operation sequences -/

/-- One public `ClockReplacer` call. -/
inductive CrOp
  | unPin (f : Nat)
  | pin (f : Nat)
  | victim
deriving DecidableEq, Repr

/-- Run a list of replacer calls, collecting the result of every `victim`
call in order. -/
def crRun (r : ClockReplacer) : List CrOp → ClockReplacer × List (Option Nat)
  | [] => (r, [])
  | .unPin f :: ops => crRun (r.un_pin f) ops
  | .pin f :: ops => crRun (r.pin f) ops
  | .victim :: ops =>
    let v := r.victim
    let rest := crRun v.2 ops
    (rest.1, v.1 :: rest.2)

/-- The eviction step claimed by the spec for `un_pin` (C1): remove the
earliest record whose flag is already `true`; `none` when every flag is
`false`.  This follows the spec's words, for comparison with the source's
`removeFirstUnset`. -/
def removeFirstSet : List (Bool × Nat) → Option (List (Bool × Nat))
  | [] => none
  | q :: qs =>
    if q.1 = true then some qs
    else (removeFirstSet qs).map (fun qs' => q :: qs')

/-- `un_pin` as the spec claims it behaves (C1): identical to
`ClockReplacer.un_pin` except that the eviction step prefers the earliest
record whose flag is `true` and falls back to popping the front only when
every flag is `false`. -/
def unPinClaimed (r : ClockReplacer) (f : Nat) : ClockReplacer :=
  match flipFrame f r.queue with
  | some q' => { r with queue := q' }
  | none =>
    let q :=
      if r.queue.length = r.num_pages then
        match removeFirstSet r.queue with
        | some q' => q'
        | none => r.queue.tail
      else r.queue
    { r with queue := q ++ [(true, f)] }

/-! ### Basic lemmas about the replacer helpers -/

theorem flipFrame_eq_none {f : Nat} {q : List (Bool × Nat)}
    (h : ∀ p ∈ q, p.2 ≠ f) : flipFrame f q = none := by
  induction q with
  | nil => rfl
  | cons a as ih =>
    simp only [flipFrame]
    rw [if_neg (h a (List.mem_cons_self a as)),
      ih fun p hp => h p (List.mem_cons_of_mem a hp)]
    rfl

theorem mem_of_flipFrame_eq_none {f : Nat} {q : List (Bool × Nat)}
    (h : flipFrame f q = none) : ∀ p ∈ q, p.2 ≠ f := by
  induction q with
  | nil => intro p hp; cases hp
  | cons a as ih =>
    intro p hp
    simp only [flipFrame] at h
    by_cases ha : a.2 = f
    · rw [if_pos ha] at h; cases h
    · rw [if_neg ha] at h
      rcases List.mem_cons.mp hp with hpa | hpas
      · rw [hpa]; exact ha
      · cases hfa : flipFrame f as with
        | some q' => rw [hfa] at h; cases h
        | none => exact ih hfa p hpas

theorem flipFrame_map_snd {f : Nat} {q q' : List (Bool × Nat)}
    (h : flipFrame f q = some q') : q'.map Prod.snd = q.map Prod.snd := by
  induction q generalizing q' with
  | nil => cases h
  | cons a as ih =>
    simp only [flipFrame] at h
    by_cases ha : a.2 = f
    · rw [if_pos ha] at h
      cases h
      simp
    · rw [if_neg ha] at h
      cases hfa : flipFrame f as with
      | some qs' =>
        rw [hfa] at h
        cases h
        simp [ih hfa]
      | none => rw [hfa] at h; cases h

theorem removeFirstUnset_eq_none {q : List (Bool × Nat)}
    (h : ∀ p ∈ q, p.1 = true) : removeFirstUnset q = none := by
  induction q with
  | nil => rfl
  | cons a as ih =>
    simp only [removeFirstUnset]
    rw [if_neg (by simp [h a (List.mem_cons_self a as)]),
      ih fun p hp => h p (List.mem_cons_of_mem a hp)]
    rfl

theorem removeFirstUnset_decomp {q : List (Bool × Nat)}
    (h : ¬ ∀ p ∈ q, p.1 = true) :
    ∃ x l1 l2, q = l1 ++ (false, x) :: l2 ∧ (∀ p ∈ l1, p.1 = true) ∧
      removeFirstUnset q = some (l1 ++ l2) := by
  induction q with
  | nil => exact absurd (by intro p hp; cases hp) h
  | cons a as ih =>
    by_cases ha : a.1 = true
    · have has : ¬ ∀ p ∈ as, p.1 = true := by
        intro hall
        exact h fun p hp => by
          rcases List.mem_cons.mp hp with hpa | hpas
          · rw [hpa]; exact ha
          · exact hall p hpas
      obtain ⟨x, l1, l2, hq, hl1, hr⟩ := ih has
      refine ⟨x, a :: l1, l2, by rw [hq]; rfl, ?_, ?_⟩
      · intro p hp
        rcases List.mem_cons.mp hp with hpa | hpl1
        · rw [hpa]; exact ha
        · exact hl1 p hpl1
      · simp only [removeFirstUnset]
        rw [if_neg (by simp [ha]), hr]
        rfl
    · have ha' : a.1 = false := by
        cases hfa : a.1
        · rfl
        · exact absurd hfa ha
      refine ⟨a.2, [], as, ?_, ?_, ?_⟩
      · simp only [List.nil_append]
        rw [← ha']
      · intro p hp; cases hp
      · simp only [removeFirstUnset]
        rw [if_pos ha']
        rfl

theorem removeFirstUnset_sublist {q q' : List (Bool × Nat)}
    (h : removeFirstUnset q = some q') : q'.Sublist q := by
  induction q generalizing q' with
  | nil => cases h
  | cons a as ih =>
    simp only [removeFirstUnset] at h
    by_cases ha : a.1 = false
    · rw [if_pos ha] at h
      cases h
      exact (List.sublist_cons_self a as)
    · rw [if_neg ha] at h
      cases hfa : removeFirstUnset as with
      | some qs' =>
        rw [hfa] at h
        cases h
        exact List.Sublist.cons₂ a (ih hfa)
      | none => rw [hfa] at h; cases h

theorem removeFirstId_sublist (f : Nat) (q : List (Bool × Nat)) :
    (removeFirstId f q).Sublist q := by
  induction q with
  | nil => exact List.Sublist.refl []
  | cons a as ih =>
    simp only [removeFirstId]
    by_cases ha : a.2 = f
    · rw [if_pos ha]
      exact List.sublist_cons_self a as
    · rw [if_neg ha]
      exact List.Sublist.cons₂ a ih

theorem victimScan_map_snd {q q' : List (Bool × Nat)} {v : Nat}
    (h : victimScan q = some (v, q')) : q'.map Prod.snd = q.map Prod.snd := by
  induction q generalizing q' with
  | nil => cases h
  | cons a as ih =>
    simp only [victimScan] at h
    by_cases ha : a.1 = true
    · rw [if_pos ha] at h
      cases h
      simp
    · rw [if_neg ha] at h
      cases hfa : victimScan as with
      | some p =>
        rw [hfa] at h
        cases h
        simp [ih (by rw [hfa])]
      | none => rw [hfa] at h; cases h

theorem victimScan_mem {q q' : List (Bool × Nat)} {v : Nat}
    (h : victimScan q = some (v, q')) : v ∈ q.map Prod.snd := by
  induction q generalizing q' with
  | nil => cases h
  | cons a as ih =>
    simp only [victimScan] at h
    by_cases ha : a.1 = true
    · rw [if_pos ha] at h
      cases h
      simp
    · rw [if_neg ha] at h
      cases hfa : victimScan as with
      | some p =>
        rw [hfa] at h
        cases h
        exact List.mem_cons_of_mem _ (ih (by rw [hfa]))
      | none => rw [hfa] at h; cases h

/-! ### Nodup and membership preservation for the replacer -/

/-- The frame ids tracked by a replacer, in ring order. -/
def crIds (r : ClockReplacer) : List Nat :=
  r.queue.map Prod.snd

theorem un_pin_nodup (r : ClockReplacer) (f : Nat)
    (h : (crIds r).Nodup) : (crIds (r.un_pin f)).Nodup := by
  unfold crIds ClockReplacer.un_pin
  cases hf : flipFrame f r.queue with
  | some q' =>
    simpa [flipFrame_map_snd hf] using h
  | none =>
    have hnotmem : f ∉ r.queue.map Prod.snd := by
      intro hmem
      obtain ⟨p, hp, hpf⟩ := List.mem_map.mp hmem
      exact mem_of_flipFrame_eq_none hf p hp hpf
    simp only
    set q1 : List (Bool × Nat) :=
      if r.queue.length = r.num_pages then
        match removeFirstUnset r.queue with
        | some q' => q'
        | none => r.queue.tail
      else r.queue with hq1
    have hsub : q1.Sublist r.queue := by
      rw [hq1]
      by_cases hlen : r.queue.length = r.num_pages
      · rw [if_pos hlen]
        cases hru : removeFirstUnset r.queue with
        | some q' => exact removeFirstUnset_sublist hru
        | none => exact List.tail_sublist r.queue
      · rw [if_neg hlen]
    have hmapsub : (q1.map Prod.snd).Sublist (r.queue.map Prod.snd) :=
      hsub.map Prod.snd
    have hnd1 : (q1.map Prod.snd).Nodup := hmapsub.nodup h
    have hnm1 : f ∉ q1.map Prod.snd := fun hm => hnotmem (hmapsub.subset hm)
    simp [List.nodup_append, hnd1, hnm1]

theorem pin_nodup (r : ClockReplacer) (f : Nat)
    (h : (crIds r).Nodup) : (crIds (r.pin f)).Nodup := by
  unfold crIds ClockReplacer.pin
  exact ((removeFirstId_sublist f r.queue).map Prod.snd).nodup h

theorem victim_nodup (r : ClockReplacer)
    (h : (crIds r).Nodup) : (crIds r.victim.2).Nodup := by
  unfold crIds ClockReplacer.victim
  cases hv : victimScan r.queue with
  | some p =>
    cases p with
    | mk v q' => simpa [victimScan_map_snd hv] using h
  | none => exact h

theorem crRun_nodup (ops : List CrOp) :
    ∀ r : ClockReplacer, (crIds r).Nodup → (crIds (crRun r ops).1).Nodup := by
  induction ops with
  | nil => intro r h; exact h
  | cons op ops ih =>
    intro r h
    cases op with
    | unPin f => exact ih _ (un_pin_nodup r f h)
    | pin f => exact ih _ (pin_nodup r f h)
    | victim => exact ih _ (victim_nodup r h)

theorem un_pin_not_mem (r : ClockReplacer) {f g : Nat} (hfg : f ≠ g)
    (h : f ∉ crIds r) : f ∉ crIds (r.un_pin g) := by
  unfold crIds ClockReplacer.un_pin
  cases hf : flipFrame g r.queue with
  | some q' =>
    rw [flipFrame_map_snd hf]
    exact h
  | none =>
    simp only
    set q1 : List (Bool × Nat) :=
      if r.queue.length = r.num_pages then
        match removeFirstUnset r.queue with
        | some q' => q'
        | none => r.queue.tail
      else r.queue with hq1
    have hsub : q1.Sublist r.queue := by
      rw [hq1]
      by_cases hlen : r.queue.length = r.num_pages
      · rw [if_pos hlen]
        cases hru : removeFirstUnset r.queue with
        | some q' => exact removeFirstUnset_sublist hru
        | none => exact List.tail_sublist r.queue
      · rw [if_neg hlen]
    intro hmem
    rw [List.map_append] at hmem
    rcases List.mem_append.mp hmem with hm1 | hm2
    · exact h ((hsub.map Prod.snd).subset hm1)
    · simp only [List.map_cons, List.map_nil, List.mem_singleton] at hm2
      exact hfg hm2

theorem pin_not_mem (r : ClockReplacer) {f : Nat} (g : Nat)
    (h : f ∉ crIds r) : f ∉ crIds (r.pin g) := by
  unfold crIds ClockReplacer.pin at *
  exact fun hm => h (((removeFirstId_sublist g r.queue).map Prod.snd).subset hm)

theorem removeFirstId_self_not_mem {f : Nat} {q : List (Bool × Nat)}
    (h : (q.map Prod.snd).Nodup) : f ∉ (removeFirstId f q).map Prod.snd := by
  induction q with
  | nil => intro hm; cases hm
  | cons a as ih =>
    simp only [removeFirstId]
    by_cases ha : a.2 = f
    · rw [if_pos ha]
      intro hm
      rw [List.map_cons, ha] at h
      exact (List.nodup_cons.mp h).1 hm
    · rw [if_neg ha]
      intro hm
      rw [List.map_cons] at hm h
      rcases List.mem_cons.mp hm with hfa | hfr
      · exact ha hfa.symm
      · exact ih (List.nodup_cons.mp h).2 hfr

theorem pin_self_not_mem (r : ClockReplacer) (f : Nat)
    (h : (crIds r).Nodup) : f ∉ crIds (r.pin f) := by
  unfold crIds ClockReplacer.pin
  exact removeFirstId_self_not_mem h

theorem victim_not_mem (r : ClockReplacer) {f : Nat}
    (h : f ∉ crIds r) : f ∉ crIds r.victim.2 := by
  unfold crIds ClockReplacer.victim at *
  cases hv : victimScan r.queue with
  | some p =>
    cases p with
    | mk v q' =>
      rw [victimScan_map_snd hv]
      exact h
  | none => exact h

theorem victim_some_mem (r : ClockReplacer) {v : Nat}
    (h : r.victim.1 = some v) : v ∈ crIds r := by
  unfold crIds
  unfold ClockReplacer.victim at h
  cases hv : victimScan r.queue with
  | some p =>
    cases p with
    | mk w q' =>
      rw [hv] at h
      simp only [Option.some.injEq] at h
      rw [← h]
      exact victimScan_mem hv
  | none => rw [hv] at h; cases h

theorem crRun_victims_not_mem (ops : List CrOp) {f : Nat}
    (hops : ∀ op ∈ ops, op ≠ CrOp.unPin f) :
    ∀ r : ClockReplacer, f ∉ crIds r → some f ∉ (crRun r ops).2 := by
  induction ops with
  | nil => intro r _ hm; cases hm
  | cons op ops ih =>
    intro r hr
    have hops' : ∀ op ∈ ops, op ≠ CrOp.unPin f :=
      fun o ho => hops o (List.mem_cons_of_mem op ho)
    cases op with
    | unPin g =>
      have hfg : f ≠ g := by
        intro hfg
        exact hops (CrOp.unPin g) (List.mem_cons_self _ _) (by rw [hfg])
      exact ih hops' _ (un_pin_not_mem r hfg hr)
    | pin g => exact ih hops' _ (pin_not_mem r g hr)
    | victim =>
      simp only [crRun]
      intro hm
      rcases List.mem_cons.mp hm with hv | hrest
      · have : f ∈ crIds r := victim_some_mem r hv.symm
        exact hr this
      · exact ih hops' _ (victim_not_mem r hr) hrest

/-! ### Claim theorems for the clock replacer -/

/-- C1 (counterexample): at capacity, `un_pin` of an untracked frame does NOT
evict the earliest record whose flag is `true`; with ring
`[(false, 1), (true, 2)]` of capacity 2, `un_pin 3` removes `(false, 1)`,
whereas the claimed rule would remove `(true, 2)`. -/
theorem C1_counterexample :
    ClockReplacer.un_pin ⟨[(false, 1), (true, 2)], 2⟩ 3 ≠
      unPinClaimed ⟨[(false, 1), (true, 2)], 2⟩ 3 := by decide

/-- C1 (amended): for a `ClockReplacer` at capacity, `un_pin f` with `f`
untracked first removes the earliest record whose evictable flag is FALSE;
only when every record's flag is true does it instead pop the front record
unconditionally; it then appends `(true, f)` at the tail. -/
theorem C1_un_pin_eviction (r : ClockReplacer) (f : Nat)
    (hcap : r.queue.length = r.num_pages)
    (hun : ∀ p ∈ r.queue, p.2 ≠ f) :
    ((∀ p ∈ r.queue, p.1 = true) →
      (r.un_pin f).queue = r.queue.tail ++ [(true, f)]) ∧
    ((¬ ∀ p ∈ r.queue, p.1 = true) →
      ∃ x l1 l2, r.queue = l1 ++ (false, x) :: l2 ∧ (∀ p ∈ l1, p.1 = true) ∧
        (r.un_pin f).queue = l1 ++ l2 ++ [(true, f)]) := by
  constructor
  · intro hall
    unfold ClockReplacer.un_pin
    rw [flipFrame_eq_none hun]
    simp only
    rw [if_pos hcap, removeFirstUnset_eq_none hall]
  · intro hnot
    obtain ⟨x, l1, l2, hq, hl1, hr⟩ := removeFirstUnset_decomp hnot
    refine ⟨x, l1, l2, hq, hl1, ?_⟩
    unfold ClockReplacer.un_pin
    rw [flipFrame_eq_none hun]
    simp only
    rw [if_pos hcap, hr]

/-- Concrete replacer used to witness `C1_un_pin_eviction`. -/
def crC1 : ClockReplacer := ⟨[(false, 1), (true, 2)], 2⟩

/-- Witness for C1 at `crC1` with frame 3. -/
theorem C1_un_pin_eviction_witness :
    crC1.queue.length = crC1.num_pages ∧ (∀ p ∈ crC1.queue, p.2 ≠ 3) ∧
    (((∀ p ∈ crC1.queue, p.1 = true) →
      (crC1.un_pin 3).queue = crC1.queue.tail ++ [(true, 3)]) ∧
    ((¬ ∀ p ∈ crC1.queue, p.1 = true) →
      ∃ x l1 l2, crC1.queue = l1 ++ (false, x) :: l2 ∧ (∀ p ∈ l1, p.1 = true) ∧
        (crC1.un_pin 3).queue = l1 ++ l2 ++ [(true, 3)])) :=
  ⟨by decide, by decide, C1_un_pin_eviction crC1 3 (by decide) (by decide)⟩

/-- C9: starting from a newly constructed `ClockReplacer`, after any sequence
of `un_pin`, `pin` and `victim` calls every frame id appears at most once in
the ring. -/
theorem C9_no_duplicate_frames (n : Nat) (ops : List CrOp) :
    (crIds (crRun (ClockReplacer.new n) ops).1).Nodup :=
  crRun_nodup ops (ClockReplacer.new n) List.nodup_nil

/-- C4: for every frame id `f`, in any replacer state reached from a fresh
replacer, after `pin f` no subsequent sequence of calls avoiding `un_pin f`
ever has a `victim` call return `f`. -/
theorem C4_pinned_never_victim (n : Nat) (ops1 ops2 : List CrOp) (f : Nat)
    (h : ∀ op ∈ ops2, op ≠ CrOp.unPin f) :
    some f ∉ (crRun ((crRun (ClockReplacer.new n) ops1).1.pin f) ops2).2 := by
  have hnd : (crIds (crRun (ClockReplacer.new n) ops1).1).Nodup :=
    crRun_nodup ops1 (ClockReplacer.new n) List.nodup_nil
  exact crRun_victims_not_mem ops2 h _ (pin_self_not_mem _ f hnd)

/-- Witness for C4: capacity 2, unpin 1 and 2, pin 1, then two `victim`
calls; neither returns frame 1. -/
theorem C4_pinned_never_victim_witness :
    (∀ op ∈ [CrOp.victim, CrOp.victim], op ≠ CrOp.unPin 1) ∧
    some 1 ∉ (crRun ((crRun (ClockReplacer.new 2)
      [CrOp.unPin 1, CrOp.unPin 2]).1.pin 1) [CrOp.victim, CrOp.victim]).2 :=
  ⟨by decide, C4_pinned_never_victim 2 [CrOp.unPin 1, CrOp.unPin 2]
    [CrOp.victim, CrOp.victim] 1 (by decide)⟩

/-! ## Disk manager (`src/storage/disk_manager.rs`)

The backing file is a `List Nat` of bytes; `page_data` buffers are passed as
their byte list (for writes) or as their length (for reads, the function
returning the bytes actually read).  A seek past end-of-file followed by a
write fills the gap with zero bytes. -/

/-- The file as seen after seeking to offset `n`: zero-filled up to `n` when
`n` lies past end-of-file. -/
def padTo (file : List Nat) (n : Nat) : List Nat :=
  file ++ List.replicate (n - file.length) 0

namespace DiskManager

/-- `DiskManager::write_page` (impl `PageDevice`): writes
`min data.length PAGE_SIZE` bytes at `page_id * PAGE_SIZE`, no-op returning 0
on an empty buffer; returns the updated file and the byte count written. -/
def write_page (file : List Nat) (page_id : Nat) (data : List Nat) :
    List Nat × Nat :=
  if data.length = 0 then (file, 0)
  else
    let writeLen := min data.length PAGE_SIZE
    let offset := page_id * PAGE_SIZE
    let f := padTo file offset
    (f.take offset ++ data.take writeLen ++ f.drop (offset + writeLen),
      writeLen)

/-- `DiskManager::read_page` (impl `PageDevice`): given the length of the
caller's buffer, returns the byte count read and the bytes placed in the
buffer.  Every control path of the source returns `Ok`; the `Except` layer
carries only environmental I/O faults, which the pure file model does not
produce. -/
def read_page (file : List Nat) (page_id : Nat) (bufLen : Nat) :
    Except Unit (Nat × List Nat) :=
  let offset := page_id * PAGE_SIZE
  if bufLen = 0 then .ok (0, [])
  else if file.length ≤ offset then .ok (0, [])
  else
    let readLen := min (min bufLen PAGE_SIZE) (file.length - offset)
    .ok (readLen, (file.drop offset).take readLen)

end DiskManager

/-- Apply a sequence of `(page_id, data)` writes to the file in order. -/
def applyWrites (file : List Nat) : List (Nat × List Nat) → List Nat
  | [] => file
  | w :: ws => applyWrites (DiskManager.write_page file w.1 w.2).1 ws

/-! ### Lemmas about disk writes -/

theorem length_padTo (file : List Nat) (n : Nat) :
    (padTo file n).length = max file.length n := by
  simp only [padTo, List.length_append, List.length_replicate]
  omega

theorem write_page_fst_length (file : List Nat) (i : Nat) (d : List Nat) :
    ((DiskManager.write_page file i d).1).length =
      if d.length = 0 then file.length
      else max file.length (i * PAGE_SIZE + min d.length PAGE_SIZE) := by
  by_cases hd : d.length = 0
  · simp [DiskManager.write_page, hd]
  · simp only [DiskManager.write_page, if_neg hd, List.length_append,
      List.length_take, List.length_drop, length_padTo, List.length_replicate]
    omega

theorem write_page_length_mono (file : List Nat) (i : Nat) (d : List Nat) :
    file.length ≤ ((DiskManager.write_page file i d).1).length := by
  rw [write_page_fst_length]
  by_cases hd : d.length = 0
  · rw [if_pos hd]
  · rw [if_neg hd]
    omega

theorem write_page_getElem_new (file : List Nat) (i : Nat) (d : List Nat)
    {k : Nat} (hk : k < min d.length PAGE_SIZE) :
    ((DiskManager.write_page file i d).1)[i * PAGE_SIZE + k]? = d[k]? := by
  have hd : ¬ d.length = 0 := by omega
  simp only [DiskManager.write_page, if_neg hd]
  rw [List.append_assoc]
  have hlenA : ((padTo file (i * PAGE_SIZE)).take (i * PAGE_SIZE)).length =
      i * PAGE_SIZE := by
    rw [List.length_take, length_padTo]
    omega
  rw [List.getElem?_append_right (by omega), hlenA]
  have hidx : i * PAGE_SIZE + k - i * PAGE_SIZE = k := by omega
  rw [hidx, List.getElem?_append_left (by
    rw [List.length_take]
    omega), List.getElem?_take_of_lt hk]

theorem write_page_getElem_untouched (file : List Nat) (i : Nat)
    (d : List Nat) {p : Nat} (hp : p < file.length)
    (hout : p < i * PAGE_SIZE ∨ i * PAGE_SIZE + min d.length PAGE_SIZE ≤ p) :
    ((DiskManager.write_page file i d).1)[p]? = file[p]? := by
  by_cases hd : d.length = 0
  · simp [DiskManager.write_page, hd]
  · simp only [DiskManager.write_page, if_neg hd]
    have hpadlen : (padTo file (i * PAGE_SIZE)).length =
        max file.length (i * PAGE_SIZE) := length_padTo file _
    have hpadget : (padTo file (i * PAGE_SIZE))[p]? = file[p]? :=
      List.getElem?_append_left hp
    rcases hout with h1 | h2
    · rw [List.getElem?_append_left (by
        rw [List.length_append, List.length_take, hpadlen]
        omega),
        List.getElem?_append_left (by
          rw [List.length_take, hpadlen]
          omega),
        List.getElem?_take_of_lt h1, hpadget]
    · rw [List.append_assoc]
      have hlenA : ((padTo file (i * PAGE_SIZE)).take (i * PAGE_SIZE)).length =
          i * PAGE_SIZE := by
        rw [List.length_take, hpadlen]
        omega
      rw [List.getElem?_append_right (by omega), hlenA]
      have hlenB : (d.take (min d.length PAGE_SIZE)).length =
          min d.length PAGE_SIZE := by
        rw [List.length_take]
        omega
      rw [List.getElem?_append_right (by rw [hlenB]; omega), hlenB,
        List.getElem?_drop]
      have hidx : i * PAGE_SIZE + min d.length PAGE_SIZE +
          (p - i * PAGE_SIZE - min d.length PAGE_SIZE) = p := by omega
      rw [hidx, hpadget]

theorem applyWrites_preserves (i len : Nat) (hlenPS : len ≤ PAGE_SIZE)
    (ws : List (Nat × List Nat)) (hws : ∀ w ∈ ws, w.1 ≠ i) :
    ∀ g : List Nat, i * PAGE_SIZE + len ≤ g.length →
      i * PAGE_SIZE + len ≤ (applyWrites g ws).length ∧
      ∀ k, k < len →
        (applyWrites g ws)[i * PAGE_SIZE + k]? = g[i * PAGE_SIZE + k]? := by
  induction ws with
  | nil => intro g hg; exact ⟨hg, fun k _ => rfl⟩
  | cons w ws ih =>
    intro g hg
    have hwi : w.1 ≠ i := hws w (List.mem_cons_self w ws)
    have hws' : ∀ x ∈ ws, x.1 ≠ i :=
      fun x hx => hws x (List.mem_cons_of_mem w hx)
    have hg' : i * PAGE_SIZE + len ≤
        ((DiskManager.write_page g w.1 w.2).1).length :=
      le_trans hg (write_page_length_mono g w.1 w.2)
    obtain ⟨hl, hb⟩ := ih hws' (DiskManager.write_page g w.1 w.2).1 hg'
    refine ⟨hl, fun k hk => ?_⟩
    rw [show applyWrites g (w :: ws) =
      applyWrites (DiskManager.write_page g w.1 w.2).1 ws from rfl, hb k hk]
    apply write_page_getElem_untouched g w.1 w.2 (by omega)
    have hmin : min w.2.length PAGE_SIZE ≤ PAGE_SIZE := by omega
    rcases Nat.lt_or_ge w.1 i with hji | hij
    · right
      have hstep : w.1 * PAGE_SIZE + PAGE_SIZE ≤ i * PAGE_SIZE := by
        rw [← Nat.succ_mul]
        exact Nat.mul_le_mul_right _ hji
      omega
    · left
      have hij' : i < w.1 := by omega
      have hstep : i * PAGE_SIZE + PAGE_SIZE ≤ w.1 * PAGE_SIZE := by
        rw [← Nat.succ_mul]
        exact Nat.mul_le_mul_right _ hij'
      omega

/-! ### Claim theorems for the disk manager -/

/-- C6: writing a non-empty `d` of length at most `PAGE_SIZE` to page `i`
returns `d.length`; after any later writes to other pages, reading page `i`
into a buffer of length at least `d.length` yields a count `n ≥ d.length`
whose first `d.length` bytes equal `d`. -/
theorem C6_write_read_roundtrip (file : List Nat) (i : Nat) (d : List Nat)
    (laterWrites : List (Nat × List Nat)) (bufLen : Nat)
    (hd : d ≠ []) (hlen : d.length ≤ PAGE_SIZE)
    (hlater : ∀ w ∈ laterWrites, w.1 ≠ i) (hbuf : d.length ≤ bufLen) :
    (DiskManager.write_page file i d).2 = d.length ∧
    ∃ n bytes,
      DiskManager.read_page
        (applyWrites (DiskManager.write_page file i d).1 laterWrites) i
        bufLen = .ok (n, bytes) ∧
      d.length ≤ n ∧ bytes.take d.length = d := by
  have hd0 : d.length ≠ 0 := fun h => hd (List.length_eq_zero.mp h)
  have hmin : min d.length PAGE_SIZE = d.length := by omega
  constructor
  · simp only [DiskManager.write_page, if_neg hd0]
    omega
  · set file1 := (DiskManager.write_page file i d).1 with hfile1
    have hlen1 : i * PAGE_SIZE + d.length ≤ file1.length := by
      rw [hfile1, write_page_fst_length, if_neg hd0, hmin]
      omega
    obtain ⟨hl2, hb2⟩ :=
      applyWrites_preserves i d.length hlen laterWrites hlater file1 hlen1
    set file2 := applyWrites file1 laterWrites with hfile2
    have hoff : i * PAGE_SIZE < file2.length := by omega
    have hbuf0 : ¬ bufLen = 0 := by omega
    refine ⟨min (min bufLen PAGE_SIZE) (file2.length - i * PAGE_SIZE),
      (file2.drop (i * PAGE_SIZE)).take
        (min (min bufLen PAGE_SIZE) (file2.length - i * PAGE_SIZE)),
      ?_, by omega, ?_⟩
    · simp only [DiskManager.read_page, if_neg hbuf0,
        if_neg (by omega : ¬ file2.length ≤ i * PAGE_SIZE)]
    · rw [List.take_take]
      have hmin2 : min d.length
          (min (min bufLen PAGE_SIZE) (file2.length - i * PAGE_SIZE)) =
          d.length := by omega
      rw [hmin2]
      apply List.ext_getElem?
      intro k
      by_cases hk : k < d.length
      · rw [List.getElem?_take_of_lt hk, List.getElem?_drop,
          hb2 k hk, hfile1, write_page_getElem_new file i d (by omega)]
      · rw [List.getElem?_eq_none_iff.mpr (by
          rw [List.length_take, List.length_drop]
          omega),
          Eq.comm, List.getElem?_eq_none_iff]
        omega

/-- Concrete inputs used to witness `C6_write_read_roundtrip`. -/
def c6File : List Nat := []

/-- Witness for C6: write `[3, 5]` to page 0 of an empty file, then write
`[9]` to page 1, then read page 0 with a `PAGE_SIZE` buffer. -/
theorem C6_write_read_roundtrip_witness :
    ([3, 5] : List Nat) ≠ [] ∧ ([3, 5] : List Nat).length ≤ PAGE_SIZE ∧
    (∀ w ∈ [((1 : Nat), [(9 : Nat)])], w.1 ≠ 0) ∧
    ([3, 5] : List Nat).length ≤ PAGE_SIZE ∧
    ((DiskManager.write_page c6File 0 [3, 5]).2 = ([3, 5] : List Nat).length ∧
    ∃ n bytes,
      DiskManager.read_page
        (applyWrites (DiskManager.write_page c6File 0 [3, 5]).1
          [((1 : Nat), [(9 : Nat)])]) 0 PAGE_SIZE = .ok (n, bytes) ∧
      ([3, 5] : List Nat).length ≤ n ∧ bytes.take ([3, 5] : List Nat).length =
        [3, 5]) :=
  ⟨by decide, by decide, by decide, by decide,
    C6_write_read_roundtrip c6File 0 [3, 5] [((1 : Nat), [(9 : Nat)])]
      PAGE_SIZE (by decide) (by decide) (by decide) (by decide)⟩

/-- C7: reading a page whose offset is at or beyond end-of-file returns
`Ok 0`, never an error; a read that would run past end-of-file returns
exactly the bytes available (a short read), not an error. -/
theorem C7_read_page_eof (file : List Nat) (i bufLen : Nat) :
    (file.length ≤ i * PAGE_SIZE →
      DiskManager.read_page file i bufLen = .ok (0, [])) ∧
    (i * PAGE_SIZE < file.length → 0 < bufLen →
      file.length - i * PAGE_SIZE < min bufLen PAGE_SIZE →
      DiskManager.read_page file i bufLen =
        .ok (file.length - i * PAGE_SIZE, file.drop (i * PAGE_SIZE))) := by
  constructor
  · intro hlen
    by_cases hb : bufLen = 0
    · simp [DiskManager.read_page, hb]
    · simp [DiskManager.read_page, hb, hlen]
  · intro hoff hb hshort
    have hb0 : ¬ bufLen = 0 := by omega
    simp only [DiskManager.read_page, if_neg hb0,
      if_neg (by omega : ¬ file.length ≤ i * PAGE_SIZE)]
    have hmin : min (min bufLen PAGE_SIZE) (file.length - i * PAGE_SIZE) =
        file.length - i * PAGE_SIZE := by omega
    rw [hmin]
    have htake : (file.drop (i * PAGE_SIZE)).take
        (file.length - i * PAGE_SIZE) = file.drop (i * PAGE_SIZE) := by
      apply List.take_of_length_le
      rw [List.length_drop]
    rw [htake]

/-- Witness for C7: a 3-byte file; page 1 is past end-of-file, and a 5-byte
read of page 0 is a short read of the 3 available bytes. -/
theorem C7_read_page_eof_witness :
    (([1, 2, 3] : List Nat).length ≤ 1 * PAGE_SIZE ∧
      DiskManager.read_page [1, 2, 3] 1 PAGE_SIZE = .ok (0, [])) ∧
    (0 * PAGE_SIZE < ([1, 2, 3] : List Nat).length ∧ 0 < 5 ∧
      ([1, 2, 3] : List Nat).length - 0 * PAGE_SIZE < min 5 PAGE_SIZE ∧
      DiskManager.read_page [1, 2, 3] 0 5 =
        .ok (([1, 2, 3] : List Nat).length - 0 * PAGE_SIZE,
          List.drop (0 * PAGE_SIZE) [1, 2, 3])) :=
  ⟨⟨by decide, (C7_read_page_eof [1, 2, 3] 1 PAGE_SIZE).1 (by decide)⟩,
    ⟨by decide, by decide, by decide,
      (C7_read_page_eof [1, 2, 3] 0 5).2 (by decide) (by decide)
        (by decide)⟩⟩

/-! ## Buffer pool manager (`src/storage/buffer_pool_manager.rs`)

A `BufferPoolCache` is one cached page frame.  The `rc` field models the
strong count of the `Arc` holding the frame: the pool's own reference plus
one per outstanding caller handle.  `Arc::strong_count(..) == 1` in the
source corresponds to `rc = 1` here.

`BufferPoolCache::sync` takes `&self` in the source: it writes the page
back when `modified` is set but cannot (and does not) clear the flag, so
here it returns only the updated file.  When an evicted frame's last `Arc`
is dropped right after an explicit `sync`, `Drop` runs `sync` again with
identical bytes; `DiskManager.write_page` is deterministic, so that second
write leaves the file unchanged and is elided. -/

structure BufferPoolCache where
  cache : List Nat
  page_id : Nat
  modified : Bool
  rc : Nat
deriving DecidableEq, Repr

structure BufferPoolManager where
  queue : List (Nat × BufferPoolCache)
  pool_size : Nat
  num_instance : Nat
  instance_index : Nat
  next_page_id : Nat
  clock_replacer : ClockReplacer
  file : List Nat
deriving DecidableEq, Repr

/-- `BufferPoolManager::new` (initial file contents supplied explicitly). -/
def BufferPoolManager.new (pool_size : Nat) (file : List Nat) :
    BufferPoolManager :=
  ⟨[], pool_size, 1, 0, 0, ClockReplacer.new pool_size, file⟩

/-- `BufferPoolCache::sync`: write the page back if dirty; the `modified`
flag itself is untouched (the source method takes `&self`). -/
def BufferPoolCache.sync (c : BufferPoolCache) (file : List Nat) : List Nat :=
  if c.modified then (DiskManager.write_page file c.page_id c.cache).1
  else file

/-- `BufferPoolCache::create`: zero-filled buffer written through to disk
immediately; returns the frame and the updated file. -/
def BufferPoolCache.create (page_id : Nat) (file : List Nat) :
    BufferPoolCache × List Nat :=
  let page_data := List.replicate PAGE_SIZE 0
  (⟨page_data, page_id, false, 1⟩,
    (DiskManager.write_page file page_id page_data).1)

/-- `BufferPoolCache::read`, factored over the disk read's outcome: an `Ok`
with count 0 yields `None`, a positive count yields a frame whose buffer is
the bytes read followed by the untouched zero fill, and an `Err` falls
through to the final `None` of the source. -/
def BufferPoolCache.read_result (page_id : Nat)
    (res : Except Unit (Nat × List Nat)) : Option BufferPoolCache :=
  match res with
  | .ok (state, bytes) =>
    if state = 0 then none
    else some ⟨bytes ++ List.replicate (PAGE_SIZE - bytes.length) 0,
      page_id, false, 1⟩
  | .error _ => none

/-- `BufferPoolCache::read` against the pure file model. -/
def BufferPoolCache.read (page_id : Nat) (file : List Nat) :
    Option BufferPoolCache :=
  BufferPoolCache.read_result page_id
    (DiskManager.read_page file page_id PAGE_SIZE)

/-- Find the first cache entry for `page_id` (the `iter().find` in the
source) and return it with the remaining queue, as `queue.remove(idx)`
does. -/
def removeFirstEntry (page_id : Nat) :
    List (Nat × BufferPoolCache) →
      Option (BufferPoolCache × List (Nat × BufferPoolCache))
  | [] => none
  | e :: es =>
    if e.1 = page_id then some (e.2, es)
    else (removeFirstEntry page_id es).map (fun p => (p.1, e :: p.2))

/-- Find and remove the first cache entry whose `Arc` strong count is 1. -/
def removeFirstRcOne :
    List (Nat × BufferPoolCache) →
      Option (BufferPoolCache × List (Nat × BufferPoolCache))
  | [] => none
  | e :: es =>
    if e.2.rc = 1 then some (e.2, es)
    else (removeFirstRcOne es).map (fun p => (p.1, e :: p.2))

/-- Lookup without removal (the `iter().find` of `fetch_page` and
`flush_page`). -/
def findEntry (page_id : Nat) :
    List (Nat × BufferPoolCache) → Option BufferPoolCache
  | [] => none
  | e :: es => if e.1 = page_id then some e.2 else findEntry page_id es

/-- Increment the modelled `Arc` strong count of the entry for `page_id`
(the `Arc::clone` handed out on a cache hit). -/
def bumpRc (page_id : Nat) :
    List (Nat × BufferPoolCache) → List (Nat × BufferPoolCache)
  | [] => []
  | e :: es =>
    if e.1 = page_id then (e.1, { e.2 with rc := e.2.rc + 1 }) :: es
    else e :: bumpRc page_id es

/-- Outcome of `BufferPoolManager::check_queue`: either the updated pool, or
one of the two fatal branches — `dataOutOfSync` for the
`"Data is out of sync"` call to `panic` and `runOutOfCache` for
`"Run out of Cache"`. -/
inductive CheckResult
  | ok (b : BufferPoolManager)
  | dataOutOfSync
  | runOutOfCache
deriving DecidableEq, Repr

/-- `BufferPoolManager::check_queue`. -/
def BufferPoolManager.check_queue (b : BufferPoolManager) : CheckResult :=
  if b.queue.length = b.pool_size then
    match b.clock_replacer.victim with
    | (some remove_id, cr) =>
      match removeFirstEntry remove_id b.queue with
      | some (c, q') =>
        .ok { b with
          queue := q', clock_replacer := cr, file := c.sync b.file }
      | none => .dataOutOfSync
    | (none, cr) =>
      match removeFirstRcOne b.queue with
      | some (c, q') =>
        .ok { b with
          queue := q', clock_replacer := cr, file := c.sync b.file }
      | none => .runOutOfCache
  else .ok b

/-- Result of a public pool operation: `ok` carries the returned page handle
(if any) and the next state; the two fatal constructors propagate the
`check_queue` aborts. -/
inductive PoolResult
  | ok (page : Option BufferPoolCache) (b : BufferPoolManager)
  | dataOutOfSync
  | runOutOfCache
deriving DecidableEq, Repr

/-- `BufferPoolManager::allocate_page`: hands out `next_page_id` and bumps
the counter by `num_instance`.  The `validate_page_id` assertion
(`page_id % num_instance == instance_index`) always holds in reachable
states, where `num_instance = 1` and `instance_index = 0`. -/
def BufferPoolManager.allocate_page (b : BufferPoolManager) :
    Nat × BufferPoolManager :=
  (b.next_page_id,
    { b with next_page_id := b.next_page_id + b.num_instance })

/-- `PoolManager::fetch_page`, factored over the outcome of the disk read
performed on a cache miss (the source reads before calling
`check_queue`). -/
def BufferPoolManager.fetch_page_with (b : BufferPoolManager)
    (page_id : Nat) (res : Except Unit (Nat × List Nat)) : PoolResult :=
  let b1 := { b with clock_replacer := b.clock_replacer.pin page_id }
  match findEntry page_id b1.queue with
  | some c =>
    .ok (some { c with rc := c.rc + 1 })
      { b1 with queue := bumpRc page_id b1.queue }
  | none =>
    match BufferPoolCache.read_result page_id res with
    | some c =>
      match b1.check_queue with
      | .ok b2 =>
        .ok (some { c with rc := 2 })
          { b2 with queue := b2.queue ++ [(page_id, { c with rc := 2 })] }
      | .dataOutOfSync => .dataOutOfSync
      | .runOutOfCache => .runOutOfCache
    | none => .ok none b1

/-- `PoolManager::fetch_page` against the pure file model. -/
def BufferPoolManager.fetch_page (b : BufferPoolManager) (page_id : Nat) :
    PoolResult :=
  b.fetch_page_with page_id
    (DiskManager.read_page b.file page_id PAGE_SIZE)

/-- `PoolManager::new_page`. -/
def BufferPoolManager.new_page (b : BufferPoolManager) : PoolResult :=
  let a := b.allocate_page
  match a.2.check_queue with
  | .ok b2 =>
    let cf := BufferPoolCache.create a.1 b2.file
    .ok (some { cf.1 with rc := 2 })
      { b2 with
        file := cf.2,
        queue := b2.queue ++ [(a.1, { cf.1 with rc := 2 })] }
  | .dataOutOfSync => .dataOutOfSync
  | .runOutOfCache => .runOutOfCache

/-- `PoolManager::un_pin`. -/
def BufferPoolManager.un_pin (b : BufferPoolManager) (page_id : Nat) :
    BufferPoolManager :=
  { b with clock_replacer := b.clock_replacer.un_pin page_id }

/-- `PoolManager::flush_page`. -/
def BufferPoolManager.flush_page (b : BufferPoolManager) (page_id : Nat) :
    BufferPoolManager :=
  match findEntry page_id b.queue with
  | some c => { b with file := c.sync b.file }
  | none => b

/-- `PoolManager::delete_page`: removes the entry, re-registers the page id
in the replacer via `un_pin`, and syncs the frame. -/
def BufferPoolManager.delete_page (b : BufferPoolManager) (page_id : Nat) :
    BufferPoolManager :=
  match removeFirstEntry page_id b.queue with
  | some (c, q') =>
    { b with
      queue := q',
      clock_replacer := b.clock_replacer.un_pin page_id,
      file := c.sync b.file }
  | none => b

/-- `PoolManager::flush_all_page`: sync every cached frame in queue order. -/
def BufferPoolManager.flush_all_page (b : BufferPoolManager) :
    BufferPoolManager :=
  { b with file := b.queue.foldl (fun f e => e.2.sync f) b.file }

/-! ### Public operation sequences of the pool -/

/-- One public `PoolManager` call. -/
inductive BpmOp
  | newPage
  | fetchPage (page_id : Nat)
  | unPin (page_id : Nat)
  | flushPage (page_id : Nat)
  | flushAllPage
  | deletePage (page_id : Nat)
deriving DecidableEq, Repr

/-- A pool run either is in a normal state or has aborted in one of the two
fatal `check_queue` branches. -/
inductive RunState
  | ok (b : BufferPoolManager)
  | dataOutOfSync
  | runOutOfCache
deriving DecidableEq, Repr

def bpmStep (b : BufferPoolManager) : BpmOp → RunState
  | .newPage =>
    match b.new_page with
    | .ok _ b' => .ok b'
    | .dataOutOfSync => .dataOutOfSync
    | .runOutOfCache => .runOutOfCache
  | .fetchPage pid =>
    match b.fetch_page pid with
    | .ok _ b' => .ok b'
    | .dataOutOfSync => .dataOutOfSync
    | .runOutOfCache => .runOutOfCache
  | .unPin pid => .ok (b.un_pin pid)
  | .flushPage pid => .ok (b.flush_page pid)
  | .flushAllPage => .ok b.flush_all_page
  | .deletePage pid => .ok (b.delete_page pid)

def bpmRun (b : BufferPoolManager) : List BpmOp → RunState
  | [] => .ok b
  | op :: ops =>
    match bpmStep b op with
    | .ok b' => bpmRun b' ops
    | .dataOutOfSync => .dataOutOfSync
    | .runOutOfCache => .runOutOfCache

/-! ### Helper lemmas for the pool theorems -/

theorem read_page_eof_of_le {file : List Nat} {i : Nat} (bufLen : Nat)
    (h : file.length ≤ i * PAGE_SIZE) :
    DiskManager.read_page file i bufLen = .ok (0, []) := by
  by_cases hb : bufLen = 0
  · simp [DiskManager.read_page, hb]
  · simp [DiskManager.read_page, hb, h]

theorem removeFirstEntry_decomp {pid : Nat}
    {q : List (Nat × BufferPoolCache)} (h : ∃ e ∈ q, e.1 = pid) :
    ∃ l1 e l2, q = l1 ++ e :: l2 ∧ e.1 = pid ∧ (∀ x ∈ l1, x.1 ≠ pid) ∧
      removeFirstEntry pid q = some (e.2, l1 ++ l2) := by
  induction q with
  | nil => obtain ⟨e, he, _⟩ := h; cases he
  | cons a as ih =>
    by_cases ha : a.1 = pid
    · refine ⟨[], a, as, rfl, ha, ?_, ?_⟩
      · intro x hx; cases hx
      · simp only [removeFirstEntry]
        rw [if_pos ha]
        rfl
    · have has : ∃ e ∈ as, e.1 = pid := by
        obtain ⟨e, he, hep⟩ := h
        rcases List.mem_cons.mp he with hea | heas
        · exact absurd (hea ▸ hep) ha
        · exact ⟨e, heas, hep⟩
      obtain ⟨l1, e, l2, hq, hep, hl1, hr⟩ := ih has
      refine ⟨a :: l1, e, l2, by rw [hq]; rfl, hep, ?_, ?_⟩
      · intro x hx
        rcases List.mem_cons.mp hx with hxa | hxl1
        · rw [hxa]; exact ha
        · exact hl1 x hxl1
      · simp only [removeFirstEntry]
        rw [if_neg ha, hr]
        rfl

theorem removeFirstRcOne_decomp {q : List (Nat × BufferPoolCache)}
    (h : ∃ e ∈ q, e.2.rc = 1) :
    ∃ l1 e l2, q = l1 ++ e :: l2 ∧ e.2.rc = 1 ∧ (∀ x ∈ l1, x.2.rc ≠ 1) ∧
      removeFirstRcOne q = some (e.2, l1 ++ l2) := by
  induction q with
  | nil => obtain ⟨e, he, _⟩ := h; cases he
  | cons a as ih =>
    by_cases ha : a.2.rc = 1
    · refine ⟨[], a, as, rfl, ha, ?_, ?_⟩
      · intro x hx; cases hx
      · simp only [removeFirstRcOne]
        rw [if_pos ha]
        rfl
    · have has : ∃ e ∈ as, e.2.rc = 1 := by
        obtain ⟨e, he, hep⟩ := h
        rcases List.mem_cons.mp he with hea | heas
        · exact absurd (hea ▸ hep) ha
        · exact ⟨e, heas, hep⟩
      obtain ⟨l1, e, l2, hq, hep, hl1, hr⟩ := ih has
      refine ⟨a :: l1, e, l2, by rw [hq]; rfl, hep, ?_, ?_⟩
      · intro x hx
        rcases List.mem_cons.mp hx with hxa | hxl1
        · rw [hxa]; exact ha
        · exact hl1 x hxl1
      · simp only [removeFirstRcOne]
        rw [if_neg ha, hr]
        rfl

theorem removeFirstRcOne_eq_none {q : List (Nat × BufferPoolCache)}
    (h : ∀ e ∈ q, e.2.rc ≠ 1) : removeFirstRcOne q = none := by
  induction q with
  | nil => rfl
  | cons a as ih =>
    simp only [removeFirstRcOne]
    rw [if_neg (h a (List.mem_cons_self a as)),
      ih fun e he => h e (List.mem_cons_of_mem a he)]
    rfl

/-! ### Claim theorems for the buffer pool manager -/

/-- Concrete pool used as a C2 counterexample: one cached dirty frame for
page 0 holding byte `[7]`, backing file `[5]`. -/
def c2Frame : BufferPoolCache := ⟨[7], 0, true, 1⟩

def c2Bpm : BufferPoolManager := ⟨[(0, c2Frame)], 1, 1, 0, 1, ⟨[], 1⟩, [5]⟩

/-- C2 (counterexample): `flush_page 0` performs the write-back (the file
becomes `[7]`), yet the cached frame's dirty flag is still `true`
afterwards — the flag is never cleared. -/
theorem C2_counterexample :
    (c2Bpm.flush_page 0).file = [7] ∧
    findEntry 0 (c2Bpm.flush_page 0).queue = some c2Frame ∧
    c2Frame.modified = true := by decide

/-- C2 (amended): write-back leaves the dirty flag untouched: `flush_page`
and `flush_all_page` do not modify the cache table at all (queue, frames
and their `modified` flags are unchanged); `BufferPoolCache::sync` takes
`&self` and cannot clear the flag. -/
theorem C2_flush_preserves_queue (b : BufferPoolManager) (page_id : Nat) :
    (b.flush_page page_id).queue = b.queue ∧
    b.flush_all_page.queue = b.queue := by
  constructor
  · unfold BufferPoolManager.flush_page
    cases findEntry page_id b.queue <;> rfl
  · rfl

/-- C3 (code bug): the fatal `"Data is out of sync"` branch of
`check_queue` IS reachable by a sequence of public operations.  On a pool of
size 1: `new_page` caches page 0; `delete_page 0` removes it from the cache
but re-registers id 0 in the replacer via `un_pin`; the next `new_page`
caches page 1; the following `new_page` finds the cache at capacity, gets
victim 0 from the replacer, finds no cache entry for it and aborts. -/
theorem C3_desync_reachable :
    bpmRun (BufferPoolManager.new 1 [])
      [BpmOp.newPage, BpmOp.deletePage 0, BpmOp.newPage, BpmOp.newPage] =
      RunState.dataOutOfSync := rfl

/-- C5: with the cache at capacity, `check_queue` proceeds exactly as
claimed: a replacer victim present in the cache is removed (earliest entry
with that page id) and written back when dirty; with no victim, the
earliest frame whose shared-handle count is 1 is removed and synced; with
no victim and no such frame, the operation aborts fatally
(`runOutOfCache`), not with a recoverable error. -/
theorem C5_check_queue (b : BufferPoolManager)
    (hlen : b.queue.length = b.pool_size) :
    (∀ v cr, b.clock_replacer.victim = (some v, cr) →
      (∃ e ∈ b.queue, e.1 = v) →
      ∃ l1 e l2, b.queue = l1 ++ e :: l2 ∧ e.1 = v ∧
        (∀ x ∈ l1, x.1 ≠ v) ∧
        b.check_queue = .ok { b with
          queue := l1 ++ l2, clock_replacer := cr,
          file := if e.2.modified then
              (DiskManager.write_page b.file e.2.page_id e.2.cache).1
            else b.file }) ∧
    (∀ cr, b.clock_replacer.victim = (none, cr) →
      ((∃ e ∈ b.queue, e.2.rc = 1) →
        ∃ l1 e l2, b.queue = l1 ++ e :: l2 ∧ e.2.rc = 1 ∧
          (∀ x ∈ l1, x.2.rc ≠ 1) ∧
          b.check_queue = .ok { b with
            queue := l1 ++ l2, clock_replacer := cr,
            file := if e.2.modified then
                (DiskManager.write_page b.file e.2.page_id e.2.cache).1
              else b.file }) ∧
      ((∀ e ∈ b.queue, e.2.rc ≠ 1) → b.check_queue = .runOutOfCache)) := by
  refine ⟨?_, ?_⟩
  · intro v cr hv hmem
    obtain ⟨l1, e, l2, hq, hep, hl1, hr⟩ := removeFirstEntry_decomp hmem
    refine ⟨l1, e, l2, hq, hep, hl1, ?_⟩
    unfold BufferPoolManager.check_queue
    rw [if_pos hlen, hv]
    dsimp only
    rw [hr]
    rfl
  · intro cr hv
    refine ⟨?_, ?_⟩
    · intro hmem
      obtain ⟨l1, e, l2, hq, hep, hl1, hr⟩ := removeFirstRcOne_decomp hmem
      refine ⟨l1, e, l2, hq, hep, hl1, ?_⟩
      unfold BufferPoolManager.check_queue
      rw [if_pos hlen, hv]
      dsimp only
      rw [hr]
      rfl
    · intro hnone
      unfold BufferPoolManager.check_queue
      rw [if_pos hlen, hv]
      dsimp only
      rw [removeFirstRcOne_eq_none hnone]

/-- Concrete pool used to witness `C5_check_queue`: capacity 1, one clean
cached frame for page 0, replacer tracking 0 as evictable. -/
def c5Frame : BufferPoolCache := ⟨[9], 0, false, 2⟩

def c5Bpm : BufferPoolManager :=
  ⟨[(0, c5Frame)], 1, 1, 0, 1, ⟨[(true, 0)], 1⟩, []⟩

/-- Witness for C5 at `c5Bpm`: the replacer yields victim 0, present in the
cache, and `check_queue` evicts it. -/
theorem C5_check_queue_witness :
    c5Bpm.queue.length = c5Bpm.pool_size ∧
    c5Bpm.clock_replacer.victim = (some 0, ⟨[(false, 0)], 1⟩) ∧
    (∃ e ∈ c5Bpm.queue, e.1 = 0) ∧
    (∃ l1 e l2, c5Bpm.queue = l1 ++ e :: l2 ∧ e.1 = 0 ∧
      (∀ x ∈ l1, x.1 ≠ 0) ∧
      c5Bpm.check_queue = .ok { c5Bpm with
        queue := l1 ++ l2, clock_replacer := ⟨[(false, 0)], 1⟩,
        file := if e.2.modified then
            (DiskManager.write_page c5Bpm.file e.2.page_id e.2.cache).1
          else c5Bpm.file }) :=
  ⟨by decide, by decide, by decide,
    (C5_check_queue c5Bpm (by decide)).1 0 ⟨[(false, 0)], 1⟩ (by decide)
      (by decide)⟩

/-- Concrete empty pool used for the C8 counterexample and witness. -/
def c8Bpm : BufferPoolManager := ⟨[], 1, 1, 0, 0, ⟨[], 1⟩, []⟩

/-- C8 (counterexample): a disk read failing with an I/O error during
`fetch_page` produces exactly the same outcome as a missing page — `none`,
with only the replacer pinned — so the failure is NOT surfaced as a
distinguishable error value. -/
theorem C8_counterexample :
    c8Bpm.fetch_page_with 7 (.error ()) =
      c8Bpm.fetch_page_with 7 (.ok (0, [])) ∧
    c8Bpm.fetch_page_with 7 (.error ()) =
      .ok none { c8Bpm with clock_replacer := c8Bpm.clock_replacer.pin 7 } :=
  by decide

/-- C8 (amended): the Buffer Pool Manager swallows Disk Manager failures:
on a cache miss, a read error during `fetch_page` is reported as `none`,
indistinguishable from the absent-page result (and the write-back paths
discard the `write_page` result entirely — `sync` has no error channel). -/
theorem C8_io_error_swallowed (b : BufferPoolManager) (page_id : Nat)
    (e : Unit) (hmiss : findEntry page_id b.queue = none) :
    b.fetch_page_with page_id (.error e) =
      .ok none { b with clock_replacer := b.clock_replacer.pin page_id } ∧
    b.fetch_page_with page_id (.error e) =
      b.fetch_page_with page_id (.ok (0, [])) := by
  unfold BufferPoolManager.fetch_page_with
  simp [hmiss, BufferPoolCache.read_result]

/-- Witness for C8 at `c8Bpm` with page 7. -/
theorem C8_io_error_swallowed_witness :
    findEntry 7 c8Bpm.queue = none ∧
    (c8Bpm.fetch_page_with 7 (.error ()) =
      .ok none { c8Bpm with clock_replacer := c8Bpm.clock_replacer.pin 7 } ∧
    c8Bpm.fetch_page_with 7 (.error ()) =
      c8Bpm.fetch_page_with 7 (.ok (0, []))) :=
  ⟨by decide, C8_io_error_swallowed c8Bpm 7 () (by decide)⟩

/-- C10: `fetch_page` pins the page id in the replacer before anything
else; when the page is absent from both the cache and the disk file it
returns `none` with the cache table and file unchanged, yet the replacer's
record for that page id has been removed. -/
theorem C10_fetch_absent_pins (b : BufferPoolManager) (page_id : Nat)
    (hcache : findEntry page_id b.queue = none)
    (hdisk : b.file.length ≤ page_id * PAGE_SIZE) :
    b.fetch_page page_id =
      .ok none { b with clock_replacer := b.clock_replacer.pin page_id } ∧
    ((crIds b.clock_replacer).Nodup →
      page_id ∉ crIds (b.clock_replacer.pin page_id)) := by
  constructor
  · unfold BufferPoolManager.fetch_page BufferPoolManager.fetch_page_with
    rw [read_page_eof_of_le PAGE_SIZE hdisk]
    simp only [hcache, BufferPoolCache.read_result]
    rfl
  · intro hnd
    exact pin_self_not_mem b.clock_replacer page_id hnd

/-- Concrete pool used to witness `C10_fetch_absent_pins`: empty cache and
file, replacer tracking page 5. -/
def c10Bpm : BufferPoolManager := ⟨[], 2, 1, 0, 0, ⟨[(true, 5)], 2⟩, []⟩

/-- Witness for C10 at `c10Bpm` with page 5. -/
theorem C10_fetch_absent_pins_witness :
    findEntry 5 c10Bpm.queue = none ∧
    c10Bpm.file.length ≤ 5 * PAGE_SIZE ∧
    (c10Bpm.fetch_page 5 =
      .ok none { c10Bpm with
        clock_replacer := c10Bpm.clock_replacer.pin 5 } ∧
    ((crIds c10Bpm.clock_replacer).Nodup →
      5 ∉ crIds (c10Bpm.clock_replacer.pin 5))) :=
  ⟨by decide, by decide, C10_fetch_absent_pins c10Bpm 5 (by decide)
    (by decide)⟩

end RelDB
